import Mathlib

/-!
Shallow embedding of the csw-to-stac catalog assembly pipeline
(`src/csw2stac/utils.py`, `stac.py`, `csw_to_stac.py`, `assets.py`),
together with theorems settling the specification claims.

Strings are modelled as Lean `String` (sequences of code points, matching
Python `str` semantics for indexing, comparison, `in`, `startswith`,
`endswith`).  Python `None`-able values are `Option`s, exceptions are
`Except.error`, and numeric coordinates are `ℚ` (the relevant claims do not
depend on float rounding).  Character-level functions (`lower`, `\w`, `\s`)
are modelled on their ASCII fragment, which is the fragment exercised by
the repository's data and by every claim.
-/

/-- ASCII lowercase map, modelling Python `str.lower` on its ASCII fragment. -/
def pyLower (c : Char) : Char :=
  match c with
  | 'A' => 'a' | 'B' => 'b' | 'C' => 'c' | 'D' => 'd' | 'E' => 'e' | 'F' => 'f'
  | 'G' => 'g' | 'H' => 'h' | 'I' => 'i' | 'J' => 'j' | 'K' => 'k' | 'L' => 'l'
  | 'M' => 'm' | 'N' => 'n' | 'O' => 'o' | 'P' => 'p' | 'Q' => 'q' | 'R' => 'r'
  | 'S' => 's' | 'T' => 't' | 'U' => 'u' | 'V' => 'v' | 'W' => 'w' | 'X' => 'x'
  | 'Y' => 'y' | 'Z' => 'z'
  | c => c

/-- Python regex `\s` (ASCII fragment): space, tab, newline, carriage return,
vertical tab, form feed. -/
def isPySpace (c : Char) : Bool :=
  c == ' ' || c == '\t' || c == '\n' || c == '\r' || c == '\x0b' || c == '\x0c'

/-- A character matched by the class `[-\s]` of `custom_slugify`'s first
substitution. -/
def isSepChar (c : Char) : Bool :=
  c == '-' || isPySpace c

/-- Python regex `\w` (ASCII fragment): letters, digits, underscore. -/
def isWordChar (c : Char) : Bool :=
  c.isAlphanum || c == '_'

/-- A character kept by `custom_slugify`'s third substitution, which deletes
every character outside the class `[\w\s.-]`. -/
def keepChar (c : Char) : Bool :=
  isWordChar c || isPySpace c || c == '.' || c == '-'

/-- Replace every maximal run of `[-\s]+` characters by a single `'_'`
(the default separator), mirroring `re.sub(r'[-\s]+', separator, text)`.
The flag records whether the previous character belonged to the current run. -/
def collapseAux : Bool → List Char → List Char
  | _, [] => []
  | inSep, c :: cs =>
    if isSepChar c then
      if inSep then collapseAux true cs else '_' :: collapseAux true cs
    else c :: collapseAux false cs

/-- First substitution of `Utils.custom_slugify`. -/
def collapseSep (l : List Char) : List Char := collapseAux false l

/-- Second substitution of `Utils.custom_slugify`:
`re.sub(r'\.(\d)', r'.\1', text)` rewrites each dot-digit pair to itself
(left-to-right, non-overlapping), i.e. it is the identity. -/
def dotDigitSub : List Char → List Char
  | [] => []
  | '.' :: d :: rest =>
    if d.isDigit then '.' :: d :: dotDigitSub rest else '.' :: dotDigitSub (d :: rest)
  | c :: rest => c :: dotDigitSub rest

/-- `Utils.custom_slugify` with the default separator `'_'` (the only form
the repository uses): collapse `[-\s]+` runs to `'_'`, apply the identity
dot-digit substitution, delete characters outside `[\w\s.-]`, lowercase. -/
def custom_slugify (s : String) : String :=
  ⟨((dotDigitSub (collapseSep s.data)).filter keepChar).map pyLower⟩

/-- Python `s.startswith(p)`. -/
def strStartsWith (s p : String) : Bool := decide (p.data <+: s.data)

/-- Python `s.endswith(p)`. -/
def strEndsWith (s p : String) : Bool := decide (p.data <:+ s.data)

/-- Python `p in s` (contiguous substring test). -/
def strContains (s p : String) : Bool := decide (p.data <:+: s.data)

/-- A Python scalar as it can occur in a bounding-box list of a harvested
record: a finite number (int or float, modelled as `ℚ`), the float `nan`,
a string, or `None`. -/
inductive PyVal where
  | num (q : ℚ)
  | nan
  | str (s : String)
  | none
deriving DecidableEq

/-- Parser for `float(str)` restricted to finite decimal literals
(optional sign, integer digits, optional fraction).  Strings outside this
fragment (exponents, `inf`, padding) are treated as unparseable; none of
them occurs in the data the claims quantify over. -/
def parseDecDigits : List Char → Option (ℚ × Bool)
  | [] => some (0, false)
  | c :: cs =>
    if c.isDigit then
      match parseDecDigits cs with
      | some (q, _) => some ((c.toNat - 48 : ℕ) * (10 : ℚ) ^ cs.length + q, true)
      | Option.none => Option.none
    else Option.none

/-- Fraction part after the decimal point: digits only, value in `[0,1)`. -/
def parseFracDigits : List Char → Option ℚ
  | [] => some 0
  | c :: cs =>
    if c.isDigit then
      match parseFracDigits cs with
      | some q => some (((c.toNat - 48 : ℕ) + q) / 10)
      | Option.none => Option.none
    else Option.none

/-- `float(s)` on the finite-decimal fragment. -/
def parseDec (s : String) : Option ℚ :=
  let core : List Char → Option ℚ := fun l =>
    match l.span (fun c => c != '.') with
    | (intPart, []) =>
      match parseDecDigits intPart with
      | some (q, true) => some q
      | _ => Option.none
    | (intPart, _ :: frac) =>
      match parseDecDigits intPart, parseFracDigits frac with
      | some (q, hasInt), some f =>
        if hasInt || frac ≠ [] then some (q + f) else Option.none
      | _, _ => Option.none
  match s.data with
  | '-' :: rest => (core rest).map (fun q => -q)
  | '+' :: rest => core rest
  | l => core l

/-- `float(coord)` as used inside `validate_and_convert`.  `PyVal.none`
raises `TypeError` (caught by the same `except` branch as `ValueError`,
hence modelled as failure).  `PyVal.nan` is unreachable at this call site:
`finalize_boundaries` filters NaN-containing bboxes before converting. -/
def pyFloat : PyVal → Option ℚ
  | .num q => some q
  | .str s => parseDec s
  | .nan => Option.none
  | .none => Option.none

/-- The NaN test of `finalize_boundaries`:
`pd.isna(coord) or (isinstance(coord, float) and math.isnan(coord)) or
(isinstance(coord, str) and coord.lower() == 'nan')`. -/
def isNaNLike : PyVal → Bool
  | .none => true
  | .nan => true
  | .num _ => false
  | .str s => s.data.map pyLower == "nan".data

/-- `validate_and_convert(coord, min_val, max_val, coord_name)` of
`Utils.finalize_boundaries`; `isMin` records whether `"min"` occurs in
`coord_name` (true for the two minimum coordinates). -/
def validate_and_convert (coord : PyVal) (minV maxV : ℚ) (isMin : Bool) : ℚ :=
  match pyFloat coord with
  | some q => if q < minV then minV else if q > maxV then maxV else q
  | Option.none => if isMin then minV else maxV

/-- The whole-world default bbox. -/
def worldBBox : List ℚ := [-180, -90, 180, 90]

/-- The record dictionary threaded through the pipeline
(`metadata` in the Python source).  Absent keys are `none`; Python's
truthiness (`if key in metadata and metadata[key]`) is `Option` presence
plus non-emptiness. -/
structure Meta where
  geonetwork_uri : String := ""
  title : Option String := Option.none
  abstract : Option String := Option.none
  subjects : List String := []
  bbox : Option (List PyVal) := Option.none
  geographic_extent : Option (List PyVal) := Option.none
  created : Option String := Option.none
  date : Option String := Option.none
  issued : Option String := Option.none
  modified : Option String := Option.none
  start_datetime : Option String := Option.none
  end_datetime : Option String := Option.none
  assets : List String := []
  provider : List (String × String) := []
  creator : Option String := Option.none
  publisher : Option String := Option.none
  distributor : Option String := Option.none
  license : Option String := Option.none
  references : Option String := Option.none
  stac_id : Option String := Option.none
  stac_collection : Option String := Option.none
deriving DecidableEq

/-- Shared body of the two bbox branches of `finalize_boundaries`:
reject the bbox wholesale if any coordinate is NaN-like, otherwise
range-validate the four coordinates independently.  `Option.none` models
the `IndexError` Python would raise on a list shorter than four. -/
def processBBox (l : List PyVal) : Option (List ℚ) :=
  if l.any isNaNLike then some worldBBox
  else
    match l.get? 0, l.get? 1, l.get? 2, l.get? 3 with
    | some a, some b, some c, some d =>
      some [validate_and_convert a (-180) 180 true,
            validate_and_convert b (-90) 90 true,
            validate_and_convert c (-180) 180 false,
            validate_and_convert d (-90) 90 false]
    | _, _, _, _ => Option.none

/-- Python truthiness of an optional list value
(`if key in metadata and metadata[key]`). -/
def truthyList : Option (List PyVal) → Option (List PyVal)
  | some (x :: xs) => some (x :: xs)
  | _ => Option.none

/-- The bbox source `Utils.finalize_boundaries` selects: a truthy `bbox`,
else a truthy `geographic_extent`, else `none` (whole-world fallback
without inspecting any coordinate). -/
def chosenSource (m : Meta) : Option (List PyVal) :=
  match truthyList m.bbox with
  | some l => some l
  | Option.none => truthyList m.geographic_extent

/-- `Utils.finalize_boundaries`: process the chosen bbox source (both
branches run the identical NaN check and per-coordinate validation), or
default to the whole-world bbox. -/
def finalize_boundaries (m : Meta) : Option (List ℚ) :=
  match chosenSource m with
  | some l => processBBox l
  | Option.none => some worldBBox

/-- Lexicographic code-point comparison on character lists: Python `<`
on `str` (also the propositional order on Lean strings, restated as a
kernel-computable Boolean). -/
def listLt : List Char → List Char → Bool
  | [], [] => false
  | [], _ :: _ => true
  | _ :: _, [] => false
  | a :: as, b :: bs =>
    if a < b then true else if b < a then false else listLt as bs

/-- Python `a < b` on strings. -/
def pyStrLt (a b : String) : Bool := listLt a.data b.data

/-- The smaller of two strings under `pyStrLt` (ties resolved to the
first argument, as in Python's comparison idioms). -/
def strMin (a b : String) : String := if pyStrLt b a then b else a

/-- The larger of two strings under `pyStrLt` (ties resolved to the
first argument). -/
def strMax (a b : String) : String := if pyStrLt a b then b else a

/-- One iteration of the loop body of `Utils.update_datetimes` for a single
date-bearing field value (state = current `(start_datetime, end_datetime)`):
skip absent or empty values; a present value lowers a set start when
smaller, raises a set end when larger, and fills each unset bound. -/
def dtStep : Option String × Option String → Option String → Option String × Option String
  | (sd, ed), Option.none => (sd, ed)
  | (sd, ed), some v =>
    if v = "" then (sd, ed)
    else
      let sd1 := match sd with
        | some st => if pyStrLt v st then some v else some st
        | Option.none => Option.none
      let ed1 := match ed with
        | some en => if pyStrLt en v then some v else some en
        | Option.none => Option.none
      ((match sd1 with | Option.none => some v | some s => some s),
       (match ed1 with | Option.none => some v | some e => some e))

/-- The loop of `Utils.update_datetimes` over the fixed field order
`['created', 'date', 'issued', 'modified']`. -/
def dtFold (m : Meta) : Option String × Option String :=
  [m.created, m.date, m.issued, m.modified].foldl dtStep
    (m.start_datetime, m.end_datetime)

/-- `Utils.update_datetimes`: widen the `[start, end]` window over the four
date fields, then default a missing start to `1970-01-01T00:00:00Z` and a
missing end — or an end equal to the (possibly defaulted) start — to
`2100-01-01T00:00:00Z`. -/
def update_datetimes (m : Meta) : Meta :=
  let sded := dtFold m
  let sd := match sded.1 with
    | Option.none => "1970-01-01T00:00:00Z"
    | some s => s
  let ed := match sded.2 with
    | Option.none => "2100-01-01T00:00:00Z"
    | some e => if e = sd then "2100-01-01T00:00:00Z" else e
  { m with start_datetime := some sd, end_datetime := some ed }

/-- Dictionary update (`d[k] = v`): replace in place, else append. -/
def setEntry {α : Type} : List (String × α) → String → α → List (String × α)
  | [], k, v => [(k, v)]
  | (k', v') :: rest, k, v =>
    if k' == k then (k, v) :: rest else (k', v') :: setEntry rest k v

/-- `CSWSTAConverter.update_progress`: the progress store maps a record
identifier to its `(in_stac, reason)` outcome.  Only the
`(status, reason)` pairs with an explicit branch touch the store; any
other pair falls through all branches and the store is re-serialized
unchanged. -/
def update_progress (store : List (String × String × String))
    (rid status reason : String) : List (String × String × String) :=
  if status == "failed" && reason == "no_assets" then
    setEntry store rid ("failed", "no_assets")
  else if status == "failed" && reason == "already_exists" then
    setEntry store rid ("failed", "already_exists")
  else if status == "failed" && reason == "no_data" then
    setEntry store rid ("failed", "no_data")
  else if status == "successful" && reason == "Ok" then
    setEntry store rid ("successful", "Ok")
  else store

/-- Length-based expansion prelude of `Utils.format_datetime_to_iso8601`
and `Utils.format_datetime`: year and year-month first (one `if/elif`
chain), then date-only / minutes-only / seconds-only completion on the
updated string (a second chain). -/
def expandDT (s : String) : String :=
  let s1 :=
    if s.length = 4 then s ++ "-01-01T00:00:00Z"
    else if s.length = 7 then s ++ "-01T00:00:00Z"
    else s
  if s1.length = 10 then s1 ++ "T00:00:00Z"
  else if s1.length = 16 then s1 ++ ":00Z"
  else if s1.length = 19 then s1 ++ "Z"
  else s1

/-- Two decimal digits. -/
def read2 : List Char → Option (Nat × List Char)
  | a :: b :: rest =>
    if a.isDigit && b.isDigit then
      some ((a.toNat - 48) * 10 + (b.toNat - 48), rest)
    else Option.none
  | _ => Option.none

/-- Four decimal digits. -/
def read4 (l : List Char) : Option (Nat × List Char) :=
  match read2 l with
  | some (hi, rest) =>
    (read2 rest).map (fun p => (hi * 100 + p.1, p.2))
  | Option.none => Option.none

/-- A parsed timestamp: date, time, optional UTC offset in minutes. -/
structure DT where
  year : Nat
  month : Nat
  day : Nat
  hour : Nat
  minute : Nat
  second : Nat
  offset : Option Int
deriving DecidableEq

/-- `dateutil.parser.parse` modelled on the ISO-8601 profile
`YYYY-MM-DDTHH:MM:SS` with optional `Z` or `±HH:MM` suffix — the language
every string produced by the expansion prelude and every timestamp in the
harvested records belongs to.  Anything else is unparseable
(`ValueError`). -/
def parseDT (s : String) : Option DT := do
  let (y, r1) ← read4 s.data
  let r2 ← if r1.head? = some '-' then some r1.tail else Option.none
  let (mo, r3) ← read2 r2
  let r4 ← if r3.head? = some '-' then some r3.tail else Option.none
  let (d, r5) ← read2 r4
  let r6 ← if r5.head? = some 'T' then some r5.tail else Option.none
  let (h, r7) ← read2 r6
  let r8 ← if r7.head? = some ':' then some r7.tail else Option.none
  let (mi, r9) ← read2 r8
  let r10 ← if r9.head? = some ':' then some r9.tail else Option.none
  let (se, r11) ← read2 r10
  let _ ← if 1 ≤ mo ∧ mo ≤ 12 ∧ 1 ≤ d ∧ d ≤ 31 ∧ h ≤ 23 ∧ mi ≤ 59 ∧ se ≤ 59
          then some () else Option.none
  match r11 with
  | [] => some ⟨y, mo, d, h, mi, se, Option.none⟩
  | ['Z'] => some ⟨y, mo, d, h, mi, se, some 0⟩
  | sgn :: rest =>
    if sgn = '+' ∨ sgn = '-' then do
      let (oh, ra) ← read2 rest
      let rb ← if ra.head? = some ':' then some ra.tail else Option.none
      let (om, rc) ← read2 rb
      let _ ← if rc = [] ∧ oh ≤ 23 ∧ om ≤ 59 then some () else Option.none
      let mins : Int := oh * 60 + om
      some ⟨y, mo, d, h, mi, se, some (if sgn = '-' then -mins else mins)⟩
    else Option.none

/-- Civil date to day number (era shifted by 400 years so that all
quantities stay in `Nat`); standard proleptic-Gregorian algorithm. -/
def daysFromCivil (y m d : Nat) : Nat :=
  let yS := y + 400
  let y' := if m ≤ 2 then yS - 1 else yS
  let era := y' / 400
  let yoe := y' % 400
  let mp := if m > 2 then m - 3 else m + 9
  let doy := (153 * mp + 2) / 5 + d - 1
  let doe := yoe * 365 + yoe / 4 - yoe / 100 + doy
  era * 146097 + doe

/-- Day number back to civil date (inverse of `daysFromCivil`). -/
def civilFromDays (z : Nat) : Nat × Nat × Nat :=
  let era := z / 146097
  let doe := z % 146097
  let yoe := (doe - doe / 1460 + doe / 36524 - doe / 146096) / 365
  let y := yoe + era * 400
  let doy := doe - (365 * yoe + yoe / 4 - yoe / 100)
  let mp := (5 * doy + 2) / 153
  let d := doy - (153 * mp + 2) / 5 + 1
  let m := if mp < 10 then mp + 3 else mp - 9
  ((if m ≤ 2 then y + 1 else y) - 400, m, d)

/-- One decimal digit as a character. -/
def digitChar : Nat → Char
  | 0 => '0' | 1 => '1' | 2 => '2' | 3 => '3' | 4 => '4'
  | 5 => '5' | 6 => '6' | 7 => '7' | 8 => '8' | _ => '9'

/-- Zero-padded two-digit rendering. -/
def pad2 (n : Nat) : String := ⟨[digitChar (n / 10 % 10), digitChar (n % 10)]⟩

/-- Zero-padded four-digit rendering. -/
def pad4 (n : Nat) : String :=
  ⟨[digitChar (n / 1000 % 10), digitChar (n / 100 % 10),
    digitChar (n / 10 % 10), digitChar (n % 10)]⟩

/-- `dt.isoformat().replace('+00:00', 'Z')` for a UTC datetime with zero
microseconds. -/
def fmtDT (y mo d h mi se : Nat) : String :=
  pad4 y ++ "-" ++ pad2 mo ++ "-" ++ pad2 d ++ "T" ++
  pad2 h ++ ":" ++ pad2 mi ++ ":" ++ pad2 se ++ "Z"

/-- `dt.astimezone(timezone.utc)` followed by formatting: shift the wall
time by the negated offset and re-split into a civil date. -/
def shiftToUTC (t : DT) (offMin : Int) : String :=
  let total : Int :=
    (daysFromCivil t.year t.month t.day : Int) * 86400 +
      t.hour * 3600 + t.minute * 60 + t.second - offMin * 60
  let tn : Nat := total.toNat
  let days := tn / 86400
  let rem := tn % 86400
  let ymd := civilFromDays days
  fmtDT ymd.1 ymd.2.1 ymd.2.2 (rem / 3600) (rem % 3600 / 60) (rem % 60)

/-- `Utils.format_datetime_to_iso8601`: expand short date strings, parse,
normalize to UTC (a naive result is assumed to already be UTC), render
with a `'Z'` suffix; unparseable strings give `None`. -/
def format_datetime_to_iso8601 (s : String) : Option String :=
  match parseDT (expandDT s) with
  | Option.none => Option.none
  | some t =>
    match t.offset with
    | Option.none => some (fmtDT t.year t.month t.day t.hour t.minute t.second)
    | some off => some (shiftToUTC t off)

/-- `Utils.format_datetime`: same expansion and parse, but an unparseable
string falls back to `datetime.today()` (passed in as `today`); the model
assumes the process-local timezone is UTC, as on the production host. -/
def format_datetime (today s : String) : String :=
  match parseDT (expandDT s) with
  | Option.none => today
  | some t =>
    match t.offset with
    | Option.none => fmtDT t.year t.month t.day t.hour t.minute t.second
    | some off => shiftToUTC t off

/-- `Utils.format_start_end_datetimes_stac` applied after
`update_datetimes` (both fields are then present). -/
def format_start_end_datetimes_stac (today : String) (m : Meta) : Meta :=
  { m with
    start_datetime := some (format_datetime today ((m.start_datetime).getD "")),
    end_datetime := some (format_datetime today ((m.end_datetime).getD "")) }

/-- Character classes occurring in the URL-pattern regexes. -/
inductive CCls where
  | alnumdash
  | alpha
deriving DecidableEq

/-- Membership in a character class: `[a-zA-Z0-9-]` or `[a-zA-Z]`. -/
def inCls : CCls → Char → Bool
  | .alnumdash, c => c.isAlphanum || c == '-'
  | .alpha, c => c.isAlpha

/-- Regex tokens sufficient for the patterns of `Utils.get_media_type`:
a literal character, an optional character (`c?`), `.` (any character),
`.*`, `[cls]+`, `[cls]*`, and the group `(?:/.*)?` of the two IPT
patterns. -/
inductive RTok where
  | ch (c : Char)
  | chOpt (c : Char)
  | anyc
  | anyStar
  | clsPlus (k : CCls)
  | clsStar (k : CCls)
  | optSlashStar
deriving DecidableEq

/-- A token sequence that can match the empty word. -/
def nullable : List RTok → Bool
  | [] => true
  | .chOpt _ :: ts => nullable ts
  | .anyStar :: ts => nullable ts
  | .clsStar _ :: ts => nullable ts
  | .optSlashStar :: ts => nullable ts
  | _ => false

/-- Brzozowski-style derivative: the alternative token sequences that
remain after the sequence consumes character `c`. -/
def rederiv : List RTok → Char → List (List RTok)
  | [], _ => []
  | .ch a :: ts, c => if c = a then [ts] else []
  | .chOpt a :: ts, c => (if c = a then [ts] else []) ++ rederiv ts c
  | .anyc :: ts, _ => [ts]
  | .anyStar :: ts, c => (.anyStar :: ts) :: rederiv ts c
  | .clsPlus k :: ts, c => if inCls k c then [.clsStar k :: ts] else []
  | .clsStar k :: ts, c =>
    (if inCls k c then [.clsStar k :: ts] else []) ++ rederiv ts c
  | .optSlashStar :: ts, c =>
    (if c = '/' then [.anyStar :: ts] else []) ++ rederiv ts c

/-- Derivative of a worklist of alternatives. -/
def rederivAll (alts : List (List RTok)) (c : Char) : List (List RTok) :=
  match alts with
  | [] => []
  | ts :: rest => rederiv ts c ++ rederivAll rest c

/-- Does some alternative match a prefix of the input? -/
def matchMany : List (List RTok) → List Char → Bool
  | alts, [] => alts.any nullable
  | alts, c :: cs => alts.any nullable || matchMany (rederivAll alts c) cs

/-- `re.search(pattern, s)` as a Boolean: some suffix position of `s`
starts a match of the token sequence. -/
def reSearch (ts : List RTok) : List Char → Bool
  | [] => nullable ts
  | c :: cs => matchMany [ts] (c :: cs) || reSearch ts cs

/-- Literal characters as tokens. -/
def lits (s : String) : List RTok := s.data.map RTok.ch

/-- A classification result of `Utils.get_media_type`:
`(asset_type, title, media_type, roles)`. -/
abbrev MType := String × String × String × List String

/-- The ordered file-extension suffix table `media_types` of
`Utils.get_media_type` (insertion order of the Python dict literal). -/
def media_types : List (String × MType) :=
  [(".zarr", ("zarr", "Zarr", "application/vnd+zarr", ["data"])),
   (".zarr/", ("zarr", "Zarr", "application/vnd+zarr", ["data"])),
   (".nc", ("netcdf", "NetCDF", "application/vnd+netcdf", ["data"])),
   (".zip", ("zip", "Zip", "application/zip", ["data"])),
   (".tif", ("geotiff", "GeoTIFF", "image/tiff; application=geotiff", ["data"])),
   (".tiff", ("geotiff", "GeoTIFF", "image/tiff; application=geotiff", ["data"])),
   (".parquet", ("parquet", "Parquet", "application/vnd+parquet", ["data"])),
   (".parquet/", ("parquet", "Parquet", "application/vnd+parquet", ["data"])),
   (".geoparquet", ("geoparquet", "GeoParquet", "application/vnd+parquet", ["data"])),
   (".geoparquet/", ("geoparquet", "GeoParquet", "application/vnd+parquet", ["data"])),
   (".csv", ("csv", "CSV", "text/csv", ["data"])),
   (".json", ("json", "JSON", "application/json", ["metadata"])),
   (".html", ("html", "HTML", "text/html", ["metadata"])),
   (".png", ("png", "PNG", "image/png", ["thumbnail"])),
   (".jpg", ("jpg", "JPEG", "image/jpeg", ["thumbnail"]))]

/-- Tokens of the pattern `r'ipt\.[a-zA-Z0-9-]+\.[a-zA-Z]+(?:/.*)?/resource\?r='`. -/
def iptResourceToks : List RTok :=
  lits "ipt." ++ [.clsPlus .alnumdash, .ch '.', .clsPlus .alpha, .optSlashStar] ++
  lits "/resource?r="

/-- Tokens of the pattern `r'ipt\.[a-zA-Z0-9-]+\.[a-zA-Z]+(?:/.*)?(?:/archive\.do\?)'`. -/
def iptDwcaToks : List RTok :=
  lits "ipt." ++ [.clsPlus .alnumdash, .ch '.', .clsPlus .alpha, .optSlashStar] ++
  lits "/archive.do?"

/-- The ordered substring/regex pattern table `url_patterns` of
`Utils.get_media_type`, compiled token-for-token from the Python regex
strings (unescaped `.` is any-character, unescaped `?` makes the previous
character optional). -/
def url_patterns : List (List RTok × MType) :=
  [(lits "opendap", ("opendap", "OPeNDAP ", "application/opendap", ["data"])),
   (lits "wms", ("wms", "WMS", "OGC:WMS", ["thumbnail"])),
   (lits "wfs", ("wfs", "WFS", "OGC:WFS", ["data"])),
   (lits "wm" ++ [.chOpt 's'] ++ lits "SERVICE=WMS&REQUEST=GetMap",
    ("wms", "WMS", "OGC:WMS", ["thumbnail"])),
   (lits "wf" ++ [.chOpt 's'] ++ lits "SERVICE=WFS&REQUEST=GetFeature",
    ("wfs", "WFS", "OGC:WFS", ["data"])),
   (lits "request=GetFeature&outputFormat=text%2Fcsv",
    ("wfscsv", "CSV", "text/csv", ["data"])),
   (lits "xml", ("xml", "XML", "application/xml", ["metadata"])),
   (lits "csw" ++ [.ch '?'] ++ lits "request=",
    ("csw", "CSW", "application/csw", ["metadata"])),
   (lits "doi" ++ [.anyc] ++ lits "org",
    ("doi", "DOI", "application/vnd+doi", ["data"])),
   (lits "doi:", ("doi", "DOI", "application/vnd+doi", ["data"])),
   (lits "eurobis" ++ [.anyc] ++ lits "org/toolbox/en/download/",
    ("eurobistoolbox", "Eurobis toolbox", "application/html", ["metadata"])),
   (lits "gbif" ++ [.anyc] ++ lits "org/dataset/",
    ("gbifdataset", "GBIF Dataset", "application/html", ["metadata"])),
   (iptResourceToks, ("iptresource", "IPT Resource", "application/html", ["metadata"])),
   (iptDwcaToks, ("iptdwca", "Darwin Core Archive", "application/zip", ["data"])),
   (lits "mda" ++ [.anyc] ++ lits "vliz" ++ [.anyc] ++ lits "be/directlink" ++
      [.anyc] ++ lits "ph" ++ [.chOpt 'p'],
    ("mdazip", "Zip", "application/zip", ["data"])),
   (lits "mda" ++ [.anyc] ++ lits "vliz" ++ [.anyc] ++ lits "be/mda/directlink" ++
      [.anyc] ++ lits "ph" ++ [.chOpt 'p'],
    ("mdazip", "Zip", "application/zip", ["data"]))]

/-- `Utils.get_media_type`: the extension table first (`str.endswith`),
then the pattern table (`re.search`); first matching rule wins in each;
no match yields the all-`None` sentinel, modelled as `Option.none`. -/
def get_media_type (url : String) : Option MType :=
  match media_types.find? (fun p => strEndsWith url p.1) with
  | some p => some p.2
  | Option.none =>
    (url_patterns.find? (fun p => reSearch p.1 url.data)).map Prod.snd

/-- Python `str.replace` (all non-overlapping occurrences, left to right),
fuel-indexed so that the recursion is structural; one unit of fuel is
spent per scan position, so `s.length` fuel always suffices (every step
consumes at least one input character). -/
def replFuel (pat rep : List Char) : Nat → List Char → List Char
  | _, [] => []
  | 0, s => s
  | fuel + 1, c :: cs =>
    if pat.isPrefixOf (c :: cs) then
      rep ++ replFuel pat rep fuel (List.drop pat.length (c :: cs))
    else c :: replFuel pat rep fuel cs

/-- Python `s.replace(pat, rep)` for non-empty `pat`. -/
def pyReplace (s pat rep : String) : String :=
  ⟨replFuel pat.data rep.data s.data.length s.data⟩

/-- The `http` → `https` normalization prelude of
`Utils.convert_ipt_to_dwca`. -/
def iptRewrite (u : String) : String :=
  if strStartsWith u "http://" then pyReplace u "http://" "https://" else u

/-- The `/resource?r=` → `/archive.do?r=` substitution of
`Utils.convert_ipt_to_dwca`, applied to the normalized link. -/
def iptArchive (u : String) : String :=
  pyReplace (iptRewrite u) "/resource?r=" "/archive.do?r="

/-- `Utils.convert_ipt_to_dwca`.  `test` is the live `Utils.test_link`
probe (truthy only on success); `Except.error` models the raised
`ValueError("Invalid IPT link format.")`. -/
def convert_ipt_to_dwca (test : String → Bool) (ipt_link : String) :
    Except String (Option String) :=
  if strContains (iptRewrite ipt_link) "/resource?r=" then
    if test (iptArchive ipt_link) then .ok (some (iptArchive ipt_link))
    else .ok Option.none
  else if strContains (iptRewrite ipt_link) "/archive.do" then
    if test (iptRewrite ipt_link) then .ok (some (iptRewrite ipt_link))
    else .ok Option.none
  else .error "Invalid IPT link format."

/-- The keyword → thematic-lot table `emodnet_provider_dict` of
`Utils.lookup_thematic_lot` (insertion order preserved). -/
def emodnet_provider_dict : List (String × String) :=
  [("seabed-habitats", "EMODnet Seabed Habitats"),
   ("seabedhabitats", "EMODnet Seabed Habitats"),
   ("emodnet-seabedhabitats", "EMODnet Seabed Habitats"),
   ("EMODnet Seabed Habitats", "EMODnet Seabed Habitats"),
   ("bathymetry", "EMODnet Bathymetry"),
   ("EMODnet Bathymetry", "EMODnet Bathymetry"),
   ("emodnet-bathymetry", "EMODnet Bathymetry"),
   ("geology", "EMODnet Geology"),
   ("EMODnet Geology", "EMODnet Geology"),
   ("emodnet-geology", "EMODnet Geology"),
   ("chemistry", "EMODnet Chemistry"),
   ("emodnet-chemistry", "EMODnet Chemistry"),
   ("EMODnet Chemistry", "EMODnet Chemistry"),
   ("eurobis", "EMODnet Biology"),
   ("obis", "EMODnet Biology"),
   ("gbif", "EMODnet Biology"),
   ("ipt", "EMODnet Biology"),
   ("mda.vliz", "EMODnet Biology"),
   ("emodnet-biology", "EMODnet Biology"),
   ("EMODnet Biology", "EMODnet Biology"),
   ("emodnet-physics", "EMODnet Physics"),
   ("EMODnet Physics", "EMODnet Physics"),
   ("physics", "EMODnet Physics"),
   ("humanactivities", "EMODnet Human Activities"),
   ("emodnet-humanactivities", "EMODnet Human Activities"),
   ("EMODnet Human Activities", "EMODnet Human Activities")]

/-- `Utils.lookup_thematic_lot`: substring scan over each asset URL, then
over the abstract, then exact membership in the subject keyword list;
default `'EMODnet'`.  (The unused `request_url` of the source has no
observable effect and is omitted.) -/
def lookup_thematic_lot (m : Meta) : String :=
  match m.assets.findSome? (fun a =>
      (emodnet_provider_dict.find? (fun kv => strContains a kv.1)).map Prod.snd) with
  | some v => v
  | Option.none =>
    match (emodnet_provider_dict.find? (fun kv =>
        strContains ((m.abstract).getD "") kv.1)).map Prod.snd with
    | some v => v
    | Option.none =>
      match (emodnet_provider_dict.find? (fun kv =>
          m.subjects.contains kv.1)).map Prod.snd with
      | some v => v
      | Option.none => "EMODnet"

/-- `Utils.update_providers`: a single `provider_dict` is filled in
creator / publisher / distributor order, later truthy fields overwriting
earlier ones; if none is present the thematic-lot lookup names the
provider.  The resulting dict is appended to the record's provider list. -/
def update_providers (m : Meta) : Meta :=
  let pd1 : Option (String × String) :=
    if ((m.creator).getD "") ≠ "" then some (((m.creator).getD ""), "creator")
    else Option.none
  let pd2 := if ((m.publisher).getD "") ≠ "" then
    some (((m.publisher).getD ""), "publisher") else pd1
  let pd3 := if ((m.distributor).getD "") ≠ "" then
    some (((m.distributor).getD ""), "distributor") else pd2
  match pd3 with
  | some p => { m with provider := m.provider ++ [p] }
  | Option.none =>
    { m with provider := m.provider ++ [(lookup_thematic_lot m, "provider")] }

/-- The `unique_providers` dict of `CSWSTACManager.add_or_use_collection`:
first occurrence of each provider name wins, insertion order kept. -/
def uniqueProviders (l : List (String × String)) : List (String × String) :=
  l.foldl (fun acc p => if acc.any (fun q => q.1 == p.1) then acc else acc ++ [p]) []

/-- A newly created `pystac.Collection` as `add_or_use_collection` builds
it (the fields the claims observe). -/
structure NewColl where
  id : String
  title : String
  providers : List (String × String)
  license : String
deriving DecidableEq

/-- `CSWSTACManager.add_or_use_collection`.  `family_ids` are the ids of
the collections already under the variable-family node.  The local
`collection_convention` is assigned only inside the
`any('EMODnet' in key ...)` branch, yet the title f-string of every newly
created collection reads it; the `Except.error` models the resulting
`UnboundLocalError`.  Returning `(m', none)` models the reuse branch
(the existing collection is looked up and returned unchanged). -/
def add_or_use_collection (family_ids : List String)
    (current_collection : String) (m : Meta) :
    Except String (Meta × Option NewColl) :=
  let m1 := update_providers m
  let uniq := uniqueProviders m1.provider
  let hasEmodnet := uniq.any (fun p => strContains p.1 "EMODnet")
  let conv : Option String := if hasEmodnet then some "EMODnet" else Option.none
  let cid := if hasEmodnet then "emodnet-" ++ custom_slugify current_collection
             else custom_slugify current_collection
  if cid ∉ family_ids then
    match conv with
    | Option.none => .error "UnboundLocalError: collection_convention"
    | some cv =>
      .ok (m1, some { id := cid,
                      title := current_collection ++ " (" ++ cv ++ " Convention)",
                      providers := uniq,
                      license := (m1.license).getD "CC-BY-4.0" })
  else .ok (m1, Option.none)

/-- A `pystac.Item` as `CSWSTACManager.add_item` builds it (the fields the
claims observe).  `assets` is the item's asset dict,
`asset_type ↦ (href, title, media_type, roles)`. -/
structure Item where
  id : String
  bbox : List ℚ
  start_dt : String
  end_dt : String
  provider_name : String
  assets : List (String × String × MType)
deriving DecidableEq

/-- A collection extent: one overall spatial bbox and one overall
temporal interval, as `pystac.Extent.from_items` computes them. -/
structure Extent where
  spatial : List ℚ
  temporal : String × String
deriving DecidableEq

/-- A `pystac.Collection` with its items. -/
structure Collection where
  id : String
  extent : Extent
  items : List Item
deriving DecidableEq

/-- Component-wise union of two bboxes. -/
def unionBBox (a b : List ℚ) : List ℚ :=
  [min (a.getD 0 0) (b.getD 0 0), min (a.getD 1 0) (b.getD 1 0),
   max (a.getD 2 0) (b.getD 2 0), max (a.getD 3 0) (b.getD 3 0)]

/-- `pystac.Extent.from_items`: the overall bbox of all item bboxes and
the overall `[min start, max end]` interval (ISO-8601 UTC strings compare
chronologically as strings).  The empty case is unreachable after an
insertion. -/
def extentFromItems (items : List Item) : Extent :=
  match items with
  | [] => ⟨worldBBox, ("1970-01-01T00:00:00Z", "2100-01-01T00:00:00Z")⟩
  | i :: rest =>
    ⟨rest.foldl (fun acc j => unionBBox acc j.bbox) i.bbox,
     (rest.foldl (fun acc j => strMin acc j.start_dt) i.start_dt,
      rest.foldl (fun acc j => strMax acc j.end_dt) i.end_dt)⟩

/-- The `lookup_assets` closure of `CSWSTACManager.add_item`: classify
each link, skip unclassifiable ones, build the asset dict keyed by asset
type (later links of the same type overwrite earlier ones). -/
def lookup_assets (links : List String) : List (String × String × MType) :=
  links.foldl (fun acc link =>
    match get_media_type link with
    | Option.none => acc
    | some t => setEntry acc t.1 (link, t)) []

/-- The metadata enrichment `add_item` performs before building the item:
`update_datetimes` then `format_start_end_datetimes_stac`. -/
def enrichDT (today : String) (m : Meta) : Meta :=
  format_start_end_datetimes_stac today (update_datetimes m)

/-- The `pystac.Item` built in the success path of `add_item`. -/
def newStacItem (today : String) (m : Meta) (bbox : List ℚ) (pname : String) : Item :=
  { id := custom_slugify ((m.title).getD ""), bbox := bbox,
    start_dt := ((enrichDT today m).start_datetime).getD "",
    end_dt := ((enrichDT today m).end_datetime).getD "",
    provider_name := pname,
    assets := lookup_assets (enrichDT today m).assets }

/-- `CSWSTACManager.add_item`.  Rejections (no/empty title, duplicate item
id, empty asset dict) return `(none, collection-unchanged)`; the
`Except.error`s model the `IndexError`s Python would raise on a short bbox
list or an empty provider list; on success the item is appended and the
collection extent recomputed from the full item set.  `today` feeds the
unparseable-date fallback of `format_datetime`. -/
def add_item (today : String) (m : Meta) (col : Collection) :
    Except String (Option Meta × Collection) :=
  if ((m.title).getD "") = "" then .ok (Option.none, col)
  else if custom_slugify ((m.title).getD "") ∈ col.items.map Item.id then
    .ok (Option.none, col)
  else
    match finalize_boundaries m with
    | Option.none => .error "IndexError: bbox"
    | some bbox =>
      match (enrichDT today m).provider with
      | [] => .error "IndexError: provider"
      | p :: _ =>
        if (lookup_assets (enrichDT today m).assets).isEmpty then
          .ok (Option.none, col)
        else
          .ok (some { enrichDT today m with
                        stac_id := some (custom_slugify ((m.title).getD "")),
                        stac_collection := some col.id },
               { col with
                   items := col.items ++ [newStacItem today m bbox p.1],
                   extent :=
                     extentFromItems (col.items ++ [newStacItem today m bbox p.1]) })

/-- Concrete record used to exercise the duplicate-item rejection. -/
def c3meta : Meta :=
  { title := some "EMODnet Seabed Habitats",
    bbox := some [.num 0, .num 0, .num 1, .num 1],
    provider := [("EMODnet", "provider")],
    assets := ["https://example.org/data.zip"] }

/-- Concrete collection already holding the item
`emodnet_seabed_habitats`. -/
def c3col : Collection :=
  { id := "c1",
    extent := ⟨worldBBox, ("1970-01-01T00:00:00Z", "2100-01-01T00:00:00Z")⟩,
    items := [{ id := "emodnet_seabed_habitats", bbox := [0, 0, 1, 1],
                start_dt := "2010-01-01T00:00:00Z",
                end_dt := "2015-01-01T00:00:00Z",
                provider_name := "EMODnet",
                assets := [("zip", "u", ("zip", "Zip", "application/zip", ["data"]))] }] }

/-- Concrete record with bbox `[2, 2, 3, 3]` used to exercise the extent
recomputation. -/
def c6meta : Meta :=
  { title := some "Second Item",
    bbox := some [.num 2, .num 2, .num 3, .num 3],
    provider := [("EMODnet Geology", "provider")],
    created := some "2020",
    assets := ["https://example.org/data.zip"] }

/-- Concrete collection holding one item with bbox `[0, 0, 1, 1]` (and a
stale whole-world extent). -/
def c6col : Collection :=
  { id := "c1",
    extent := ⟨worldBBox, ("1970-01-01T00:00:00Z", "2100-01-01T00:00:00Z")⟩,
    items := [{ id := "first_item", bbox := [0, 0, 1, 1],
                start_dt := "2010-01-01T00:00:00Z",
                end_dt := "2015-01-01T00:00:00Z",
                provider_name := "x",
                assets := [("zip", "u", ("zip", "Zip", "application/zip", ["data"]))] }] }

/-- Literal characters as tokens (list form). -/
def litsL (l : List Char) : List RTok := l.map RTok.ch

/-- Relational semantics of the regex tokens: `Matches ts w` holds when
the token sequence `ts` matches exactly the word `w`. -/
inductive Matches : List RTok → List Char → Prop
  | nil : Matches [] []
  | ch {c : Char} {ts : List RTok} {w : List Char} :
      Matches ts w → Matches (.ch c :: ts) (c :: w)
  | chOptSkip {c : Char} {ts : List RTok} {w : List Char} :
      Matches ts w → Matches (.chOpt c :: ts) w
  | chOptTake {c : Char} {ts : List RTok} {w : List Char} :
      Matches ts w → Matches (.chOpt c :: ts) (c :: w)
  | anyc {c : Char} {ts : List RTok} {w : List Char} :
      Matches ts w → Matches (.anyc :: ts) (c :: w)
  | anyStarSkip {ts : List RTok} {w : List Char} :
      Matches ts w → Matches (.anyStar :: ts) w
  | anyStarTake {c : Char} {ts : List RTok} {w : List Char} :
      Matches (.anyStar :: ts) w → Matches (.anyStar :: ts) (c :: w)
  | clsPlus {k : CCls} {c : Char} {ts : List RTok} {w : List Char} :
      inCls k c = true → Matches (.clsStar k :: ts) w →
      Matches (.clsPlus k :: ts) (c :: w)
  | clsStarSkip {k : CCls} {ts : List RTok} {w : List Char} :
      Matches ts w → Matches (.clsStar k :: ts) w
  | clsStarTake {k : CCls} {c : Char} {ts : List RTok} {w : List Char} :
      inCls k c = true → Matches (.clsStar k :: ts) w →
      Matches (.clsStar k :: ts) (c :: w)
  | optSkip {ts : List RTok} {w : List Char} :
      Matches ts w → Matches (.optSlashStar :: ts) w
  | optTake {ts : List RTok} {w : List Char} :
      Matches (.anyStar :: ts) w → Matches (.optSlashStar :: ts) ('/' :: w)

/-! ## Theorems -/

theorem pyLower_options (c : Char) :
    pyLower c = c ∨
      pyLower c ∈ ['a', 'b', 'c', 'd', 'e', 'f', 'g', 'h', 'i', 'j', 'k', 'l',
        'm', 'n', 'o', 'p', 'q', 'r', 's', 't', 'u', 'v', 'w', 'x', 'y', 'z'] := by
  unfold pyLower
  split <;> first | (right; decide) | (left; rfl)

theorem pyLower_idem (c : Char) : pyLower (pyLower c) = pyLower c := by
  rcases pyLower_options c with h | h
  · rw [h]; exact h
  · simp only [List.mem_cons, List.not_mem_nil, or_false] at h
    rcases h with h|h|h|h|h|h|h|h|h|h|h|h|h|h|h|h|h|h|h|h|h|h|h|h|h|h <;>
      rw [h] <;> decide

theorem pyLower_keep (c : Char) (h : keepChar c = true) :
    keepChar (pyLower c) = true := by
  rcases pyLower_options c with h2 | h2
  · rwa [h2]
  · simp only [List.mem_cons, List.not_mem_nil, or_false] at h2
    rcases h2 with h2|h2|h2|h2|h2|h2|h2|h2|h2|h2|h2|h2|h2|h2|h2|h2|h2|h2|h2|h2|h2|h2|h2|h2|h2|h2 <;>
      rw [h2] <;> decide

theorem pyLower_not_sep (c : Char) (h : isSepChar c = false) :
    isSepChar (pyLower c) = false := by
  rcases pyLower_options c with h2 | h2
  · rwa [h2]
  · simp only [List.mem_cons, List.not_mem_nil, or_false] at h2
    rcases h2 with h2|h2|h2|h2|h2|h2|h2|h2|h2|h2|h2|h2|h2|h2|h2|h2|h2|h2|h2|h2|h2|h2|h2|h2|h2|h2 <;>
      rw [h2] <;> decide

theorem dotDigitSub_id (l : List Char) : dotDigitSub l = l := by
  induction l using dotDigitSub.induct <;> simp_all [dotDigitSub]

theorem collapseAux_no_sep (b : Bool) (l : List Char) (c : Char)
    (h : c ∈ collapseAux b l) : isSepChar c = false := by
  induction l generalizing b with
  | nil => simp [collapseAux] at h
  | cons x xs ih =>
    rw [collapseAux] at h
    by_cases hx : isSepChar x
    · simp only [hx, if_true] at h
      by_cases hb : b
      · subst hb; simp only [if_true] at h; exact ih _ h
      · simp only [hb, if_false] at h
        rcases List.mem_cons.mp h with h1 | h1
        · subst h1; decide
        · exact ih _ h1
    · simp only [hx, if_false] at h
      rcases List.mem_cons.mp h with h1 | h1
      · subst h1; simpa using hx
      · exact ih _ h1

theorem collapseAux_id (l : List Char) (h : ∀ c ∈ l, isSepChar c = false) :
    collapseAux false l = l := by
  induction l with
  | nil => rfl
  | cons x xs ih =>
    rw [collapseAux, if_neg, ih fun c hc => h c (List.mem_cons_of_mem _ hc)]
    simp [h x (List.mem_cons_self _ _)]

theorem slug_core_mem {s : String} {c : Char}
    (h : c ∈ (((dotDigitSub (collapseSep s.data)).filter keepChar).map pyLower)) :
    isSepChar c = false ∧ keepChar c = true ∧ pyLower c = c := by
  rcases List.mem_map.mp h with ⟨c0, hc0, rfl⟩
  rw [dotDigitSub_id] at hc0
  have hk : keepChar c0 = true := (List.mem_filter.mp hc0).2
  have hs : isSepChar c0 = false :=
    collapseAux_no_sep false _ _ (List.mem_filter.mp hc0).1
  exact ⟨pyLower_not_sep _ hs, pyLower_keep _ hk, pyLower_idem c0⟩

/-- C9: `custom_slugify` is idempotent, and on `"EMODnet Seabed Habitats"`
it yields the lowercase identifier `"emodnet_seabed_habitats"` — the run
of whitespace collapsed to the separator `'_'`, everything lowercased,
and no character outside word characters, dot and hyphen surviving. -/
theorem C9_slugify_idempotent :
    (∀ s : String, custom_slugify (custom_slugify s) = custom_slugify s) ∧
      custom_slugify "EMODnet Seabed Habitats" = "emodnet_seabed_habitats" := by
  refine ⟨fun s => ?_, by decide⟩
  unfold custom_slugify
  congr 1
  set L := ((dotDigitSub (collapseSep (String.data s))).filter keepChar).map pyLower
    with hL
  have hdata : (String.mk L).data = L := rfl
  rw [hdata]
  have h1 : collapseSep L = L :=
    collapseAux_id L fun c hc => (slug_core_mem (hL ▸ hc)).1
  have h2 : dotDigitSub L = L := dotDigitSub_id L
  have h3 : L.filter keepChar = L :=
    List.filter_eq_self.mpr fun c hc => (slug_core_mem (hL ▸ hc)).2.1
  have h4 : L.map pyLower = L := by
    conv_lhs => rw [List.map_eq_map_iff.mpr fun c hc => (slug_core_mem (hL ▸ hc)).2.2]
    exact List.map_id L
  rw [h1, h2, h3, h4]

/-- C1 counterexample: the bbox `["abc", 0, 10, 10]` contains a
non-numeric coordinate, yet `finalize_boundaries` does not return the
whole-world default — the unparseable string is clamped to the minimum
bound of its own slot and the other coordinates are kept. -/
theorem C1_counterexample :
    finalize_boundaries { bbox := some [.str "abc", .num 0, .num 10, .num 10] } =
        some [-180, 0, 10, 10] ∧
      ¬ finalize_boundaries { bbox := some [.str "abc", .num 0, .num 10, .num 10] } =
        some worldBBox := by
  constructor <;> decide

/-- C1 (amended): only a missing (`None`) coordinate, a float NaN, or the
string `'nan'` (case-insensitively) discards the chosen bbox wholesale in
favour of the whole-world default `[-180, -90, 180, 90]`, regardless of
the other coordinates; other non-numeric strings are instead clamped
per coordinate. -/
theorem C1_nanlike_world (m : Meta) (b : List PyVal)
    (hsrc : chosenSource m = some b) (hnan : b.any isNaNLike = true) :
    finalize_boundaries m = some worldBBox := by
  unfold finalize_boundaries
  rw [hsrc]
  show processBBox b = some worldBBox
  unfold processBBox
  rw [hnan]
  rfl

/-- C1 witness: a bbox whose second coordinate is a float NaN is discarded
wholesale even though the other three coordinates are valid. -/
theorem C1_nanlike_world_witness :
    finalize_boundaries { bbox := some [.num 1, .nan, .num 2, .num 3] } =
      some worldBBox :=
  C1_nanlike_world _ [.num 1, .nan, .num 2, .num 3] (by decide) (by decide)

/-- C2: `update_progress` has no branch for the reason codes
`record_no_title` and `failed_to_add`; called with them it leaves the
progress store without any entry for the record, while the three reason
codes that do have branches (and the success case) are recorded.  The
claim that all five failure reasons are recorded does not hold. -/
theorem C2_progress_drops_title_and_add_failures :
    update_progress [] "rec-1" "failed" "record_no_title" = [] ∧
      update_progress [] "rec-1" "failed" "failed_to_add" = [] ∧
      update_progress [] "rec-1" "failed" "no_assets" =
        [("rec-1", "failed", "no_assets")] ∧
      update_progress [] "rec-1" "failed" "no_data" =
        [("rec-1", "failed", "no_data")] ∧
      update_progress [] "rec-1" "failed" "already_exists" =
        [("rec-1", "failed", "already_exists")] ∧
      update_progress [] "rec-1" "successful" "Ok" =
        [("rec-1", "successful", "Ok")] := by
  refine ⟨rfl, rfl, rfl, rfl, rfl, rfl⟩

/-- C4: `add_or_use_collection` raises (`UnboundLocalError` on the local
`collection_convention`) when it creates a new collection for a record
none of whose resolved provider names contains `'EMODnet'` — here a record
whose creator is `"Marine Institute"` — so per-record processing is not
exception-free. -/
theorem C4_collection_creation_raises :
    add_or_use_collection [] "Geology" { creator := some "Marine Institute" } =
      Except.error "UnboundLocalError: collection_convention" := by
  rfl

/-- C5: `update_datetimes` scans `created`, `date`, `issued`, `modified`
in that order; each present (non-empty) field can only widen the running
window — the new start is the minimum of the old start and the field, the
new end is the maximum — and the first-seen field seeds both bounds when
they are unset; afterwards a still-missing start defaults to
`1970-01-01T00:00:00Z`, and a missing end, or an end equal to the start,
defaults to `2100-01-01T00:00:00Z`. -/
theorem C5_update_datetimes_spec :
    (∀ s e v : String, v ≠ "" →
      dtStep (some s, some e) (some v) = (some (strMin s v), some (strMax e v))) ∧
    (∀ v : String, v ≠ "" →
      dtStep (Option.none, Option.none) (some v) = (some v, some v)) ∧
    (∀ m : Meta, dtFold m = (Option.none, Option.none) →
      (update_datetimes m).start_datetime = some "1970-01-01T00:00:00Z" ∧
      (update_datetimes m).end_datetime = some "2100-01-01T00:00:00Z") ∧
    (∀ (m : Meta) (s : String), dtFold m = (some s, some s) →
      (update_datetimes m).start_datetime = some s ∧
      (update_datetimes m).end_datetime = some "2100-01-01T00:00:00Z") ∧
    (∀ (m : Meta) (s e : String), dtFold m = (some s, some e) → e ≠ s →
      (update_datetimes m).start_datetime = some s ∧
      (update_datetimes m).end_datetime = some e) := by
  refine ⟨?_, ?_, ?_, ?_, ?_⟩
  · intro s e v hv
    by_cases h1 : pyStrLt v s <;> by_cases h2 : pyStrLt e v <;>
      simp [dtStep, hv, h1, h2, strMin, strMax]
  · intro v hv
    simp only [dtStep]
    rw [if_neg hv]
  · intro m hm
    unfold update_datetimes
    rw [hm]
    exact ⟨rfl, rfl⟩
  · intro m s hm
    unfold update_datetimes
    rw [hm]
    dsimp only
    rw [if_pos rfl]
    exact ⟨rfl, rfl⟩
  · intro m s e hm he
    unfold update_datetimes
    rw [hm]
    dsimp only
    rw [if_neg he]
    exact ⟨rfl, rfl⟩

/-- C5 witness: the widening step, the seeding step and the three default
rules evaluated at concrete records. -/
theorem C5_update_datetimes_spec_witness :
    dtStep (some "2020-06-01", some "2021-01-01") (some "2019-03-01") =
      (some "2019-03-01", some "2021-01-01") ∧
    dtStep (Option.none, Option.none) (some "2020-06-01") =
      (some "2020-06-01", some "2020-06-01") ∧
    (update_datetimes ({} : Meta)).start_datetime = some "1970-01-01T00:00:00Z" ∧
    (update_datetimes ({} : Meta)).end_datetime = some "2100-01-01T00:00:00Z" ∧
    (update_datetimes { created := some "2020" } : Meta).end_datetime =
      some "2100-01-01T00:00:00Z" ∧
    (update_datetimes { created := some "2020", modified := some "2021" } : Meta).start_datetime =
      some "2020" ∧
    (update_datetimes { created := some "2020", modified := some "2021" } : Meta).end_datetime =
      some "2021" := by
  refine ⟨?_, ?_, ?_, ?_, ?_, ?_, ?_⟩
  · rw [C5_update_datetimes_spec.1 "2020-06-01" "2021-01-01" "2019-03-01" (by decide)]
    decide
  · exact C5_update_datetimes_spec.2.1 "2020-06-01" (by decide)
  · exact (C5_update_datetimes_spec.2.2.1 ({} : Meta) (by decide)).1
  · exact (C5_update_datetimes_spec.2.2.1 ({} : Meta) (by decide)).2
  · exact (C5_update_datetimes_spec.2.2.2.1 { created := some "2020" } "2020" (by decide)).2
  · exact (C5_update_datetimes_spec.2.2.2.2 { created := some "2020", modified := some "2021" }
      "2020" "2021" (by decide) (by decide)).1
  · exact (C5_update_datetimes_spec.2.2.2.2 { created := some "2020", modified := some "2021" }
      "2020" "2021" (by decide) (by decide)).2

/-- C3: when the slugified title of a record equals the identifier of an
item already in the collection, `add_item` rejects the insertion — it
returns the sentinel `None` and the collection it returns is the input
collection itself, so the previously inserted item, the item set and the
item count are all unchanged. -/
theorem C3_duplicate_item_rejected (today : String) (m : Meta) (col : Collection)
    (hdup : custom_slugify ((m.title).getD "") ∈ col.items.map Item.id) :
    add_item today m col = Except.ok (Option.none, col) := by
  unfold add_item
  by_cases h0 : ((m.title).getD "") = ""
  · rw [if_pos h0]
  · rw [if_neg h0, if_pos hdup]

/-- C3 witness: inserting a record titled `"EMODnet Seabed Habitats"`
into a collection already holding the item `emodnet_seabed_habitats` is
rejected and leaves the collection unchanged. -/
theorem C3_duplicate_item_rejected_witness :
    add_item "2026-01-01T00:00:00Z" c3meta c3col = Except.ok (Option.none, c3col) :=
  C3_duplicate_item_rejected "2026-01-01T00:00:00Z" c3meta c3col (by decide)

/-- C6: after every successful insertion, the collection's aggregate
extent equals the extent recomputed from the full set of its items
(`pystac.Extent.from_items` over `get_all_items()`), never an incremental
patch of the previous extent. -/
theorem C6_extent_recomputed (today : String) (m m2 : Meta) (col col2 : Collection)
    (h : add_item today m col = Except.ok (some m2, col2)) :
    col2.extent = extentFromItems col2.items := by
  unfold add_item at h
  split at h
  · simp at h
  · split at h
    · simp at h
    · split at h
      · exact Except.noConfusion h
      · split at h
        · exact Except.noConfusion h
        · split at h
          · simp at h
          · injection h with h2
            rw [Prod.mk.injEq] at h2
            rw [← h2.2]

/-- C6 witness: inserting a record with bbox `[2, 2, 3, 3]` into a
collection holding an item with bbox `[0, 0, 1, 1]` yields the recomputed
union spatial extent `[0, 0, 3, 3]` (even though the stored extent was a
stale whole-world box). -/
theorem C6_extent_recomputed_witness :
    ∃ (m2 : Meta) (col2 : Collection),
      add_item "2026-01-01T00:00:00Z" c6meta c6col = Except.ok (some m2, col2) ∧
      col2.extent = extentFromItems col2.items ∧
      col2.extent.spatial = [0, 0, 3, 3] := by
  refine ⟨_, _, rfl, ?_, ?_⟩
  · exact C6_extent_recomputed "2026-01-01T00:00:00Z" c6meta _ c6col _ rfl
  · decide

/-- C7: `get_media_type` returns the classification of the first
file-extension suffix rule the URL matches; only when no suffix rule
matches does it consult the ordered pattern table (first match wins
there too); hence a URL that both ends in a known data-file extension and
matches a pattern rule is classified by the extension rule. -/
theorem C7_extension_priority (url : String) :
    (∀ e, media_types.find? (fun p => strEndsWith url p.1) = some e →
      get_media_type url = some e.2) ∧
    (media_types.find? (fun p => strEndsWith url p.1) = Option.none →
      get_media_type url =
        (url_patterns.find? (fun p => reSearch p.1 url.data)).map Prod.snd) ∧
    ((∃ e ∈ media_types, strEndsWith url e.1 = true) →
      ∃ e ∈ media_types, strEndsWith url e.1 = true ∧ get_media_type url = some e.2) := by
  refine ⟨?_, ?_, ?_⟩
  · intro e h
    unfold get_media_type
    rw [h]
  · intro h
    unfold get_media_type
    rw [h]
  · intro hex
    have hsome : (media_types.find? (fun p => strEndsWith url p.1)).isSome := by
      rw [List.find?_isSome]
      obtain ⟨e, he, hp⟩ := hex
      exact ⟨e, he, hp⟩
    obtain ⟨e, he⟩ := Option.isSome_iff_exists.mp hsome
    have hp := @List.find?_some _ (fun p => strEndsWith url p.1) e media_types he
    refine ⟨e, List.mem_of_find?_eq_some he, hp, ?_⟩
    unfold get_media_type
    rw [he]

/-- C7 witness: `http://ipt.vliz.be/resource?r=x.zip` both ends in the
known extension `.zip` and matches the `iptresource` pattern rule, and is
classified by the extension rule. -/
theorem C7_extension_priority_witness :
    media_types.find? (fun p => strEndsWith "http://ipt.vliz.be/resource?r=x.zip" p.1) =
      some (".zip", ("zip", "Zip", "application/zip", ["data"])) ∧
    reSearch iptResourceToks "http://ipt.vliz.be/resource?r=x.zip".data = true ∧
    get_media_type "http://ipt.vliz.be/resource?r=x.zip" =
      some ("zip", "Zip", "application/zip", ["data"]) := by
  refine ⟨by decide, by decide, ?_⟩
  exact (C7_extension_priority "http://ipt.vliz.be/resource?r=x.zip").1
    (".zip", ("zip", "Zip", "application/zip", ["data"])) (by decide)

/-- C8: `format_datetime_to_iso8601` expands date strings of length 4, 7
and 10 by appending the canonical time-of-day, normalizes parseable
strings to an ISO-8601 UTC string with `'Z'` suffix (an explicit offset is
converted to UTC, a naive result is assumed to be UTC), and returns `None`
on every unparseable input; in particular `"2020"` yields
`"2020-01-01T00:00:00Z"` and `"2020-05-01T10:00:00+02:00"` yields
`"2020-05-01T08:00:00Z"`. -/
theorem C8_format_datetime_spec :
    (∀ s : String, s.length = 4 → expandDT s = s ++ "-01-01T00:00:00Z") ∧
    (∀ s : String, s.length = 7 → expandDT s = s ++ "-01T00:00:00Z") ∧
    (∀ s : String, s.length = 10 → expandDT s = s ++ "T00:00:00Z") ∧
    format_datetime_to_iso8601 "2020" = some "2020-01-01T00:00:00Z" ∧
    format_datetime_to_iso8601 "2020-05-01T10:00:00+02:00" =
      some "2020-05-01T08:00:00Z" ∧
    (∀ s : String, parseDT (expandDT s) = Option.none →
      format_datetime_to_iso8601 s = Option.none) := by
  refine ⟨?_, ?_, ?_, by decide, by decide, ?_⟩
  · intro s h
    simp [expandDT, h, String.length_append,
      show "-01-01T00:00:00Z".length = 16 from rfl]
  · intro s h
    simp [expandDT, h, String.length_append,
      show "-01T00:00:00Z".length = 13 from rfl]
  · intro s h
    simp [expandDT, h, String.length_append]
  · intro s h
    unfold format_datetime_to_iso8601
    rw [h]

/-- C8 witness: the three expansion rules at concrete inputs, and an
unparseable string normalizing to `None`. -/
theorem C8_format_datetime_spec_witness :
    expandDT "2020" = "2020" ++ "-01-01T00:00:00Z" ∧
    expandDT "2020-05" = "2020-05" ++ "-01T00:00:00Z" ∧
    expandDT "2020-05-01" = "2020-05-01" ++ "T00:00:00Z" ∧
    format_datetime_to_iso8601 "hello" = Option.none := by
  exact ⟨C8_format_datetime_spec.1 "2020" (by decide),
         C8_format_datetime_spec.2.1 "2020-05" (by decide),
         C8_format_datetime_spec.2.2.1 "2020-05-01" (by decide),
         C8_format_datetime_spec.2.2.2.2.2 "hello" (by decide)⟩

theorem nullable_matches : ∀ ts : List RTok, nullable ts = true → Matches ts [] := by
  intro ts
  induction ts with
  | nil => intro _; exact Matches.nil
  | cons t rest ih =>
    intro h
    cases t <;> simp only [nullable] at h
    case ch => exact Bool.noConfusion h
    case anyc => exact Bool.noConfusion h
    case clsPlus => exact Bool.noConfusion h
    case chOpt => exact Matches.chOptSkip (ih h)
    case anyStar => exact Matches.anyStarSkip (ih h)
    case clsStar => exact Matches.clsStarSkip (ih h)
    case optSlashStar => exact Matches.optSkip (ih h)

theorem rederiv_matches {c : Char} :
    ∀ (ts ts' : List RTok) (w : List Char),
      ts' ∈ rederiv ts c → Matches ts' w → Matches ts (c :: w) := by
  intro ts
  induction ts with
  | nil => intro ts' w h; simp [rederiv] at h
  | cons t rest ih =>
    intro ts' w hmem hm
    cases t with
    | ch a =>
      simp only [rederiv] at hmem
      split at hmem
      · rcases List.mem_singleton.mp hmem with rfl
        subst_vars
        exact Matches.ch hm
      · simp at hmem
    | chOpt a =>
      simp only [rederiv] at hmem
      rcases List.mem_append.mp hmem with h1 | h1
      · split at h1
        · rcases List.mem_singleton.mp h1 with rfl
          subst_vars
          exact Matches.chOptTake hm
        · simp at h1
      · exact Matches.chOptSkip (ih _ _ h1 hm)
    | anyc =>
      simp only [rederiv] at hmem
      rcases List.mem_singleton.mp hmem with rfl
      exact Matches.anyc hm
    | anyStar =>
      simp only [rederiv] at hmem
      rcases List.mem_cons.mp hmem with rfl | h1
      · exact Matches.anyStarTake hm
      · exact Matches.anyStarSkip (ih _ _ h1 hm)
    | clsPlus k =>
      simp only [rederiv] at hmem
      split at hmem
      · rcases List.mem_singleton.mp hmem with rfl
        exact Matches.clsPlus (by assumption) hm
      · simp at hmem
    | clsStar k =>
      simp only [rederiv] at hmem
      rcases List.mem_append.mp hmem with h1 | h1
      · split at h1
        · rcases List.mem_singleton.mp h1 with rfl
          exact Matches.clsStarTake (by assumption) hm
        · simp at h1
      · exact Matches.clsStarSkip (ih _ _ h1 hm)
    | optSlashStar =>
      simp only [rederiv] at hmem
      rcases List.mem_append.mp hmem with h1 | h1
      · split at h1
        · rcases List.mem_singleton.mp h1 with rfl
          subst_vars
          exact Matches.optTake hm
        · simp at h1
      · exact Matches.optSkip (ih _ _ h1 hm)

theorem rederivAll_mem {c : Char} :
    ∀ (alts : List (List RTok)) (ts' : List RTok),
      ts' ∈ rederivAll alts c → ∃ ts ∈ alts, ts' ∈ rederiv ts c := by
  intro alts
  induction alts with
  | nil => intro ts' h; simp [rederivAll] at h
  | cons ts rest ih =>
    intro ts' h
    rcases List.mem_append.mp h with h1 | h1
    · exact ⟨ts, List.mem_cons_self _ _, h1⟩
    · obtain ⟨ts0, hts0, hd⟩ := ih _ h1
      exact ⟨ts0, List.mem_cons_of_mem _ hts0, hd⟩

theorem matchMany_sound :
    ∀ (cs : List Char) (alts : List (List RTok)), matchMany alts cs = true →
      ∃ ts ∈ alts, ∃ w, w <+: cs ∧ Matches ts w := by
  intro cs
  induction cs with
  | nil =>
    intro alts h
    simp only [matchMany] at h
    obtain ⟨ts, hts, hn⟩ := List.any_eq_true.mp h
    exact ⟨ts, hts, [], List.nil_prefix, nullable_matches _ hn⟩
  | cons c cs ih =>
    intro alts h
    simp only [matchMany] at h
    simp only [Bool.or_eq_true] at h
    rcases h with h1 | h1
    · obtain ⟨ts, hts, hn⟩ := List.any_eq_true.mp h1
      exact ⟨ts, hts, [], List.nil_prefix, nullable_matches _ hn⟩
    · obtain ⟨ts', hts', w, hw, hm⟩ := ih _ h1
      obtain ⟨ts, hts, hd⟩ := rederivAll_mem _ _ hts'
      refine ⟨ts, hts, c :: w, ?_, rederiv_matches _ _ _ hd hm⟩
      obtain ⟨t, ht⟩ := hw
      exact ⟨t, by rw [List.cons_append, ht]⟩

theorem reSearch_sound :
    ∀ (cs : List Char) (ts : List RTok), reSearch ts cs = true →
      ∃ w, w <:+: cs ∧ Matches ts w := by
  intro cs
  induction cs with
  | nil =>
    intro ts h
    simp only [reSearch] at h
    exact ⟨[], List.infix_refl _, nullable_matches _ h⟩
  | cons c cs ih =>
    intro ts h
    simp only [reSearch] at h
    simp only [Bool.or_eq_true] at h
    rcases h with h1 | h1
    · obtain ⟨ts0, hts0, w, hw, hm⟩ := matchMany_sound _ _ h1
      rcases List.mem_singleton.mp hts0 with rfl
      exact ⟨w, hw.isInfix, hm⟩
    · obtain ⟨w, hw, hm⟩ := ih _ h1
      exact ⟨w, List.infix_cons hw, hm⟩

theorem matches_litsL : ∀ (u w : List Char), Matches (litsL u) w → w = u := by
  intro u
  induction u with
  | nil =>
    intro w h
    cases h
    rfl
  | cons c u' ih =>
    intro w h
    cases h with
    | ch hm => rw [ih _ hm]

theorem matches_append_litsL {X : List RTok} {w : List Char} (h : Matches X w) :
    ∀ (ts : List RTok) (u : List Char), X = ts ++ litsL u → u <:+ w := by
  induction h with
  | nil =>
    intro ts u hX
    rcases List.append_eq_nil.mp hX.symm with ⟨-, h2⟩
    rcases List.map_eq_nil_iff.mp h2 with rfl
    exact List.nil_suffix
  | ch hm ih =>
    intro ts u hX
    cases ts with
    | nil =>
      simp only [List.nil_append] at hX
      cases u with
      | nil => simp [litsL] at hX
      | cons a u' =>
        simp only [litsL, List.map_cons, List.cons.injEq, RTok.ch.injEq] at hX
        obtain ⟨rfl, h2⟩ := hX
        have hw := matches_litsL u' _ (h2 ▸ hm)
        rw [hw]
    | cons t ts2 =>
      simp only [List.cons_append, List.cons.injEq] at hX
      exact (ih ts2 u hX.2).trans (List.suffix_cons _ _)
  | chOptSkip hm ih =>
    intro ts u hX
    cases ts with
    | nil =>
      cases u with
      | nil => simp [litsL] at hX
      | cons a u' => simp [litsL] at hX
    | cons t ts2 =>
      simp only [List.cons_append, List.cons.injEq] at hX
      exact ih ts2 u hX.2
  | chOptTake hm ih =>
    intro ts u hX
    cases ts with
    | nil =>
      cases u with
      | nil => simp [litsL] at hX
      | cons a u' => simp [litsL] at hX
    | cons t ts2 =>
      simp only [List.cons_append, List.cons.injEq] at hX
      exact (ih ts2 u hX.2).trans (List.suffix_cons _ _)
  | anyc hm ih =>
    intro ts u hX
    cases ts with
    | nil =>
      cases u with
      | nil => simp [litsL] at hX
      | cons a u' => simp [litsL] at hX
    | cons t ts2 =>
      simp only [List.cons_append, List.cons.injEq] at hX
      exact (ih ts2 u hX.2).trans (List.suffix_cons _ _)
  | anyStarSkip hm ih =>
    intro ts u hX
    cases ts with
    | nil =>
      cases u with
      | nil => simp [litsL] at hX
      | cons a u' => simp [litsL] at hX
    | cons t ts2 =>
      simp only [List.cons_append, List.cons.injEq] at hX
      exact ih ts2 u hX.2
  | anyStarTake hm ih =>
    intro ts u hX
    cases ts with
    | nil =>
      cases u with
      | nil => simp [litsL] at hX
      | cons a u' => simp [litsL] at hX
    | cons t ts2 =>
      simp only [List.cons_append, List.cons.injEq] at hX
      obtain ⟨rfl, h2⟩ := hX
      exact (ih (.anyStar :: ts2) u (by rw [List.cons_append, h2])).trans
        (List.suffix_cons _ _)
  | clsPlus hk hm ih =>
    intro ts u hX
    cases ts with
    | nil =>
      cases u with
      | nil => simp [litsL] at hX
      | cons a u' => simp [litsL] at hX
    | cons t ts2 =>
      simp only [List.cons_append, List.cons.injEq] at hX
      obtain ⟨rfl, h2⟩ := hX
      exact (ih (.clsStar _ :: ts2) u (by rw [List.cons_append, h2])).trans
        (List.suffix_cons _ _)
  | clsStarSkip hm ih =>
    intro ts u hX
    cases ts with
    | nil =>
      cases u with
      | nil => simp [litsL] at hX
      | cons a u' => simp [litsL] at hX
    | cons t ts2 =>
      simp only [List.cons_append, List.cons.injEq] at hX
      exact ih ts2 u hX.2
  | clsStarTake hk hm ih =>
    intro ts u hX
    cases ts with
    | nil =>
      cases u with
      | nil => simp [litsL] at hX
      | cons a u' => simp [litsL] at hX
    | cons t ts2 =>
      simp only [List.cons_append, List.cons.injEq] at hX
      obtain ⟨rfl, h2⟩ := hX
      exact (ih (.clsStar _ :: ts2) u (by rw [List.cons_append, h2])).trans
        (List.suffix_cons _ _)
  | optSkip hm ih =>
    intro ts u hX
    cases ts with
    | nil =>
      cases u with
      | nil => simp [litsL] at hX
      | cons a u' => simp [litsL] at hX
    | cons t ts2 =>
      simp only [List.cons_append, List.cons.injEq] at hX
      exact ih ts2 u hX.2
  | optTake hm ih =>
    intro ts u hX
    cases ts with
    | nil =>
      cases u with
      | nil => simp [litsL] at hX
      | cons a u' => simp [litsL] at hX
    | cons t ts2 =>
      simp only [List.cons_append, List.cons.injEq] at hX
      obtain ⟨rfl, h2⟩ := hX
      exact (ih (.anyStar :: ts2) u (by rw [List.cons_append, h2])).trans
        (List.suffix_cons _ _)

theorem preSplit {α : Type} :
    ∀ (a : List α) (w b : List α), w <+: a ++ b →
      w <+: a ∨ (a <+: w ∧ w.drop a.length <+: b) := by
  intro a
  induction a with
  | nil =>
    intro w b h
    exact Or.inr ⟨List.nil_prefix, h⟩
  | cons x a' ih =>
    intro w b h
    cases w with
    | nil => exact Or.inl List.nil_prefix
    | cons y w' =>
      rw [List.cons_append, List.cons_prefix_cons] at h
      obtain ⟨rfl, h2⟩ := h
      rcases ih w' b h2 with h3 | ⟨h3, h4⟩
      · exact Or.inl (List.cons_prefix_cons.mpr ⟨rfl, h3⟩)
      · exact Or.inr ⟨List.cons_prefix_cons.mpr ⟨rfl, h3⟩, h4⟩

theorem midGlue {α : Type} {a₁ a₂ A B : List α}
    (h1 : a₁ <:+ A) (h2 : a₂ <+: B) : (a₁ ++ a₂) <:+: (A ++ B) := by
  obtain ⟨s, hs⟩ := h1
  obtain ⟨t, ht⟩ := h2
  exact ⟨s, t, by rw [← hs, ← ht]; simp [List.append_assoc]⟩

theorem midSplit {α : Type} :
    ∀ (a : List α) (w b : List α), w <:+: a ++ b →
      w <:+: a ∨ w <:+: b ∨
        ∃ w₁ w₂, w = w₁ ++ w₂ ∧ w₁ ≠ [] ∧ w₂ ≠ [] ∧ w₁ <:+ a ∧ w₂ <+: b := by
  intro a
  induction a with
  | nil =>
    intro w b h
    exact Or.inr (Or.inl h)
  | cons x a' ih =>
    intro w b h
    rw [List.cons_append, List.infix_cons_iff] at h
    rcases h with h | h
    · cases w with
      | nil => exact Or.inl List.nil_infix
      | cons y w' =>
        rw [List.cons_prefix_cons] at h
        obtain ⟨rfl, h2⟩ := h
        rcases preSplit a' w' b h2 with h3 | ⟨h3, h4⟩
        · exact Or.inl (List.cons_prefix_cons.mpr ⟨rfl, h3⟩).isInfix
        · by_cases hw2 : w'.drop a'.length = []
          · left
            have hlen : a'.length ≤ w'.length := h3.length_le
            have : w' = a' := (h3.eq_of_length_le (by
              have := List.length_drop a'.length w'
              rw [hw2] at this
              simp at this
              omega)).symm
            subst this
            exact (List.prefix_refl _).isInfix
          · right; right
            obtain ⟨t, ht⟩ := h3
            refine ⟨y :: a', w'.drop a'.length, ?_, List.cons_ne_nil _ _, hw2,
              List.suffix_refl _, h4⟩
            rw [← ht, List.drop_left]
            simp
    · rcases ih w b h with h3 | h3 | ⟨w₁, w₂, heq, hne1, hne2, hsfx, hpre⟩
      · exact Or.inl (List.infix_cons h3)
      · exact Or.inr (Or.inl h3)
      · exact Or.inr (Or.inr ⟨w₁, w₂, heq, hne1, hne2,
          hsfx.trans (List.suffix_cons _ _), hpre⟩)

theorem replFuel_nil (pat rep : List Char) (fuel : Nat) :
    replFuel pat rep fuel [] = [] := by
  cases fuel <;> rfl

theorem replKeepPre :
    ∀ (fuel : Nat) (u s : List Char), 'h' ∉ u → u <+: s →
      u <+: replFuel "http://".data "https://".data fuel s := by
  intro fuel
  induction fuel with
  | zero =>
    intro u s hh hu
    cases s with
    | nil => rw [replFuel_nil]; exact hu
    | cons c cs => exact hu
  | succ fuel ih =>
    intro u s hh hu
    cases s with
    | nil => rw [replFuel_nil]; exact hu
    | cons c cs =>
      rw [replFuel]
      by_cases hp : List.isPrefixOf "http://".data (c :: cs) = true
      · rw [if_pos hp]
        cases u with
        | nil => exact List.nil_prefix
        | cons y u' =>
          exfalso
          have hc : c = 'h' := by
            have := List.isPrefixOf_iff_prefix.mp hp
            have hcons : ("http://".data : List Char) = 'h' :: "ttp://".data := rfl
            rw [hcons, List.cons_prefix_cons] at this
            exact this.1.symm
          rw [List.cons_prefix_cons] at hu
          exact hh (hu.1 ▸ hc ▸ List.mem_cons_self _ _)
      · rw [if_neg hp]
        cases u with
        | nil => exact List.nil_prefix
        | cons y u' =>
          rw [List.cons_prefix_cons] at hu
          obtain ⟨rfl, h2⟩ := hu
          exact List.cons_prefix_cons.mpr
            ⟨rfl, ih u' cs (fun hm => hh (List.mem_cons_of_mem _ hm)) h2⟩

theorem replKeepSub :
    ∀ (fuel : Nat) (s : List Char), "/resource?r=".data <:+: s →
      "/resource?r=".data <:+: replFuel "http://".data "https://".data fuel s := by
  intro fuel
  induction fuel with
  | zero =>
    intro s h
    cases s with
    | nil => rw [replFuel_nil]; exact h
    | cons c cs => exact h
  | succ fuel ih =>
    intro s h
    cases s with
    | nil => rw [replFuel_nil]; exact h
    | cons c cs =>
      rw [replFuel]
      by_cases hp : List.isPrefixOf "http://".data (c :: cs) = true
      · rw [if_pos hp]
        obtain ⟨rest, hrest⟩ := List.isPrefixOf_iff_prefix.mp hp
        rw [← hrest] at h
        rcases midSplit _ _ _ h with h1 | h1 | ⟨w₁, w₂, heq, hne1, hne2, hsfx, hpre⟩
        · exact absurd h1.length_le (by decide)
        · have hdrop : List.drop (List.length "http://".data) (c :: cs) = rest := by
            rw [← hrest, List.drop_left]
          rw [hdrop]
          exact (ih rest h1).trans (List.suffix_append _ _).isInfix
        · have hw1 : w₁ = ['/'] := by
            have hmem : w₁ ∈ ("http://".data).tails := (List.mem_tails _ _).mpr hsfx
            have hall : ∀ t ∈ ("http://".data).tails, t ≠ [] →
                t <+: "/resource?r=".data → t = ['/'] := by decide
            exact hall w₁ hmem hne1 (heq ▸ List.prefix_append w₁ w₂)
          subst hw1
          have hw2 : w₂ = "resource?r=".data := by
            have : ("/resource?r=".data : List Char) = ['/'] ++ "resource?r=".data := rfl
            rw [this] at heq
            exact (List.append_cancel_left heq).symm
          subst hw2
          have hdrop : List.drop (List.length "http://".data) (c :: cs) = rest := by
            rw [← hrest, List.drop_left]
          rw [hdrop]
          have hpre2 := replKeepPre fuel "resource?r=".data rest (by decide) hpre
          have hsfx2 : (['/'] : List Char) <:+ "https://".data := by decide
          have := midGlue hsfx2 hpre2
          rw [heq]
          exact this
      · rw [if_neg hp]
        rw [List.infix_cons_iff] at h
        rcases h with h1 | h1
        · have hcons : ("/resource?r=".data : List Char) = '/' :: "resource?r=".data := rfl
          rw [hcons, List.cons_prefix_cons] at h1
          obtain ⟨rfl, h2⟩ := h1
          have hpre2 := replKeepPre fuel "resource?r=".data cs (by decide) h2
          rw [hcons]
          exact (List.cons_prefix_cons.mpr ⟨rfl, hpre2⟩).isInfix
        · exact List.infix_cons (ih cs h1)

theorem iptres_implies_search (url : String)
    (h : get_media_type url =
      some ("iptresource", "IPT Resource", "application/html", ["metadata"])) :
    reSearch iptResourceToks url.data = true := by
  unfold get_media_type at h
  rcases hf : media_types.find? (fun p => strEndsWith url p.1) with _ | p
  · rw [hf] at h
    rcases hq : url_patterns.find? (fun p => reSearch p.1 url.data) with _ | q
    · rw [hq] at h
      exact Option.noConfusion h
    · rw [hq] at h
      simp only [Option.map_some'] at h
      have hq2 := Option.some.inj h
      have hmem := List.mem_of_find?_eq_some hq
      have hsearch := @List.find?_some _ (fun p => reSearch p.1 url.data) q url_patterns hq
      have hone : ∀ r ∈ url_patterns,
          r.2 = ("iptresource", "IPT Resource", "application/html", ["metadata"]) →
          r.1 = iptResourceToks := by decide
      rw [← hone q hmem hq2]
      exact hsearch
  · rw [hf] at h
    have hq2 := Option.some.inj h
    have hmem := List.mem_of_find?_eq_some hf
    have hnone : ∀ r ∈ media_types,
        ¬ r.2 = ("iptresource", "IPT Resource", "application/html", ["metadata"]) := by
      decide
    exact absurd hq2 (hnone p hmem)

theorem search_iptres_contains (cs : List Char)
    (h : reSearch iptResourceToks cs = true) : "/resource?r=".data <:+: cs := by
  obtain ⟨w, hw, hm⟩ := reSearch_sound cs iptResourceToks h
  have hshape : iptResourceToks =
      (lits "ipt." ++ [.clsPlus .alnumdash, .ch '.', .clsPlus .alpha, .optSlashStar]) ++
        litsL "/resource?r=".data := by decide
  have hsfx : "/resource?r=".data <:+ w :=
    matches_append_litsL (hshape ▸ hm) _ _ rfl
  exact hsfx.isInfix.trans hw

/-- C10: every URL classified `iptresource` contains the literal substring
`/resource?r=` (the classifying regex ends in it); the substring survives
the `http` → `https` rewrite; hence the `Invalid IPT link format`
`ValueError` branch of `convert_ipt_to_dwca` is unreachable for such URLs:
the function totally returns the rewritten archive URL when the live test
succeeds and `None` when it fails. -/
theorem C10_iptresource_safe (url : String) (test : String → Bool)
    (h : get_media_type url =
      some ("iptresource", "IPT Resource", "application/html", ["metadata"])) :
    strContains url "/resource?r=" = true ∧
    strContains (iptRewrite url) "/resource?r=" = true ∧
    convert_ipt_to_dwca test url =
      Except.ok (if test (iptArchive url) then some (iptArchive url)
                 else Option.none) := by
  have hinf : "/resource?r=".data <:+: url.data :=
    search_iptres_contains _ (iptres_implies_search url h)
  have h1 : strContains url "/resource?r=" = true := decide_eq_true hinf
  have hinf2 : "/resource?r=".data <:+: (iptRewrite url).data := by
    unfold iptRewrite
    by_cases hs : strStartsWith url "http://" = true
    · rw [if_pos hs]
      exact replKeepSub url.data.length url.data hinf
    · rw [if_neg hs]
      exact hinf
  have h2 : strContains (iptRewrite url) "/resource?r=" = true := decide_eq_true hinf2
  refine ⟨h1, h2, ?_⟩
  unfold convert_ipt_to_dwca
  rw [if_pos h2]
  by_cases ht : test (iptArchive url) = true
  · rw [if_pos ht, if_pos ht]
  · rw [if_neg ht, if_neg ht]

/-- C10 witness: the URL `http://ipt.vliz.be/resource?r=demo` is
classified `iptresource`, contains `/resource?r=` before and after the
rewrite, and converts to the archive URL when the live test succeeds. -/
theorem C10_iptresource_safe_witness :
    get_media_type "http://ipt.vliz.be/resource?r=demo" =
      some ("iptresource", "IPT Resource", "application/html", ["metadata"]) ∧
    strContains "http://ipt.vliz.be/resource?r=demo" "/resource?r=" = true ∧
    strContains (iptRewrite "http://ipt.vliz.be/resource?r=demo") "/resource?r=" = true ∧
    convert_ipt_to_dwca (fun _ => true) "http://ipt.vliz.be/resource?r=demo" =
      Except.ok (some "https://ipt.vliz.be/archive.do?r=demo") := by
  have h : get_media_type "http://ipt.vliz.be/resource?r=demo" =
      some ("iptresource", "IPT Resource", "application/html", ["metadata"]) := by decide
  have hmain := C10_iptresource_safe "http://ipt.vliz.be/resource?r=demo" (fun _ => true) h
  refine ⟨h, hmain.1, hmain.2.1, ?_⟩
  rw [hmain.2.2]
  rfl
